import Mathlib

/-!
Verification of the Inotify wrapper (jfern2011/Inotify).

The repository contains two variants of the wrapper class. The primary one,
in include/Inotify.h, keeps a watch registry (std::list of Watch), a handler
table (std::list of sig_info) and an internal event queue
(std::list of InotifyEvent), and parses raw inotify records in update_queue.
The second variant, in src/Inotify.h / src/Inotify.cpp, parses records in
the private member function that emits events on a broadcast signal and has
no registry or handler table.

The embedding below translates those data structures and member functions
into pure Lean functions. External collaborators are modelled as explicit
parameters:
 - the kernel inotify_add_watch / inotify_rm_watch results are inputs;
 - newly read bytes or newly delivered events are inputs;
 - a handler is identified by a natural number (the Signal object identity);
   whether attaching a function pointer to a Signal object succeeds is a
   Boolean input.
Behavior that is undefined in C++ (incrementing an invalidated std::list
iterator, reading past the end of the provided buffer) is modelled by
returning none.
-/

/-- Entry of the watch registry (struct Watch in include/Inotify.h):
event mask, monitored path, kernel watch descriptor. -/
structure Watch where
  mask : Nat
  path : String
  wd : Int
deriving DecidableEq, Repr

/-- Entry of the handler table (struct sig_info in include/Inotify.h):
trigger mask, handler identity (the Signal object), watch descriptor. -/
structure sig_info where
  mask : Nat
  sig : Nat
  wd : Int
deriving DecidableEq, Repr

/-- A parsed event (struct InotifyEvent in include/Inotify.h): watch
descriptor, event mask, cookie, stored length field, and the name bytes
read from the wire record. -/
structure InotifyEvent where
  wd : Int
  mask : Nat
  cookie : Nat
  len : Nat
  name : List Nat
deriving DecidableEq, Repr

/-- A parsed event of the second variant (struct Event in src/Inotify.h):
no length field, the name is stored with an explicit byte count. -/
structure Event where
  wd : Int
  mask : Nat
  cookie : Nat
  name : List Nat
deriving DecidableEq, Repr

/-- Member function exists: scan the watch registry for a descriptor. -/
def exists_wd (watches : List Watch) (wd : Int) : Bool :=
  watches.any (fun w => w.wd == wd)

/-- Member function update_watch: replace the mask of the first registry
entry carrying the descriptor and return that descriptor; return -1 when
the descriptor is not registered. -/
def update_watch (watches : List Watch) (wd : Int) (mask : Nat) :
    List Watch × Int :=
  match watches with
  | [] => ([], -1)
  | w :: rest =>
    if w.wd = wd then ({ w with mask := mask } :: rest, w.wd)
    else
      let r := update_watch rest wd mask
      (w :: r.1, r.2)

/-- Member function add_watch. The kernel call inotify_add_watch is
external; its return value is the input kwd (for a path that already has a
kernel watch, the kernel returns the existing descriptor). If kwd is
already registered the stored mask is updated in place, otherwise a new
registry entry is appended unless the kernel reported failure (-1). -/
def add_watch (watches : List Watch) (path : String) (mask : Nat)
    (kwd : Int) : List Watch × Int :=
  if exists_wd watches kwd then update_watch watches kwd mask
  else if kwd ≠ -1 then (watches ++ [⟨mask, path, kwd⟩], kwd)
  else (watches, kwd)

/-- Member function sig_exists: scan the handler table for an exact
(descriptor, mask) pair. -/
def sig_exists (sigs : List sig_info) (wd : Int) (mask : Nat) : Bool :=
  sigs.any (fun s => s.wd == wd && s.mask == mask)

/-- Two-argument detach: erase the first handler table entry whose
descriptor and mask both match, returning true; the loop returns
immediately after the erase, so no invalidated iterator is used. -/
def detach_pair (sigs : List sig_info) (wd : Int) (mask : Nat) :
    List sig_info × Bool :=
  match sigs with
  | [] => ([], false)
  | s :: rest =>
    if s.wd = wd ∧ s.mask = mask then (rest, true)
    else
      let r := detach_pair rest wd mask
      (s :: r.1, r.2)

/-- One-argument detach. The loop erases a matching element and then
increments the iterator that the erase invalidated; from that point the
C++ program has undefined behavior, modelled as none. When no element
matches, the loop completes normally and returns false. -/
def detach_wd (sigs : List sig_info) (wd : Int) :
    Option (List sig_info × Bool) :=
  match sigs with
  | [] => some ([], false)
  | s :: rest =>
    if s.wd = wd then none
    else (detach_wd rest wd).map (fun r => (s :: r.1, r.2))

/-- Member function attach (all overloads share this control flow):
abort with false when the descriptor is not registered; when an exact
(descriptor, mask) binding exists, remove it via two-argument detach;
then construct the new Signal and try to attach the function pointer
(external, modelled by the input valid) — on failure return false with
the table as it now stands, on success append the new binding. -/
def attach (watches : List Watch) (sigs : List sig_info) (wd : Int)
    (mask : Nat) (h : Nat) (valid : Bool) : List sig_info × Bool :=
  if exists_wd watches wd then
    let sigs1 := if sig_exists sigs wd mask then (detach_pair sigs wd mask).1
                 else sigs
    if valid then (sigs1 ++ [⟨mask, h, wd⟩], true)
    else (sigs1, false)
  else (sigs, false)

/-- The registry scan of rm_watch(path): erase the first entry whose path
matches, record its descriptor and the kernel removal result; when no
entry matches, the descriptor stays -1 and success stays false. -/
def rm_watch_find (watches : List Watch) (path : String) (kernelok : Bool) :
    List Watch × Int × Bool :=
  match watches with
  | [] => ([], -1, false)
  | w :: rest =>
    if w.path = path then (rest, w.wd, kernelok)
    else
      let r := rm_watch_find rest path kernelok
      (w :: r.1, r.2.1, r.2.2)

/-- Member function rm_watch(path): scan the registry, then call the
one-argument detach on the recorded descriptor (inheriting its undefined
behavior), and return the success flag through the declared int return
type (true becomes 1, false becomes 0). -/
def rm_watch_path (watches : List Watch) (sigs : List sig_info)
    (path : String) (kernelok : Bool) :
    Option (List Watch × List sig_info × Int) :=
  let r := rm_watch_find watches path kernelok
  (detach_wd sigs r.2.1).map
    (fun d => (r.1, d.1, if r.2.2 then (1 : Int) else 0))

/-- Inner loop of poll(wd): walk the handler table and raise every
handler whose descriptor matches and whose mask overlaps the event mask,
in table (insertion) order. -/
def raiseMatching (sigs : List sig_info) (wd : Int) (emask : Nat) :
    List Nat :=
  match sigs with
  | [] => []
  | s :: rest =>
    if s.wd == wd && (s.mask &&& emask) != 0 then
      s.sig :: raiseMatching rest wd emask
    else raiseMatching rest wd emask

/-- Member function poll(wd) after the pollFd read: walk the event queue;
for an event carrying the polled descriptor raise the matching handlers
and erase the event (the queue loop uses the correct
iter = erase(iter) pattern); other events stay queued. Returns the raised
handler identities in order and the remaining queue. -/
def poll_wd (sigs : List sig_info) (queue : List InotifyEvent) (wd : Int) :
    List Nat × List InotifyEvent :=
  match queue with
  | [] => ([], [])
  | e :: rest =>
    if e.wd = wd then
      let r := poll_wd sigs rest wd
      (raiseMatching sigs wd e.mask ++ r.1, r.2)
    else
      let r := poll_wd sigs rest wd
      (r.1, e :: r.2)

/-- Member function poll() with no arguments: poll each registered watch
descriptor in registry order (no read errors occur in the model, so
the conjunction of results never short-circuits). -/
def poll_all (watches : List Watch) (sigs : List sig_info)
    (queue : List InotifyEvent) : List Nat × List InotifyEvent :=
  match watches with
  | [] => ([], queue)
  | w :: rest =>
    let r1 := poll_wd sigs queue w.wd
    let r2 := poll_all rest sigs r1.2
    (r1.1 ++ r2.1, r2.2)

/-- Result of the queued-mode poll: the internal queue, the caller queue,
and the handlers raised (always none on this path). -/
structure PollQueueResult where
  iq : List InotifyEvent
  oq : List InotifyEvent
  fired : List Nat
deriving DecidableEq, Repr

/-- Member function poll(out_queue): pollFd appends the newly delivered
events to the internal queue; if the internal queue is then nonempty it
is move-assigned into the caller queue (replacing the caller queue
contents) and cleared, otherwise the caller queue is left untouched.
No handler is dispatched on this path. -/
def poll_queue (internal out newEvents : List InotifyEvent) :
    PollQueueResult :=
  let q := internal ++ newEvents
  if q.isEmpty then ⟨q, out, []⟩
  else ⟨[], q, []⟩

/-- Sign interpretation of a 32-bit field read as the unsigned value n:
the wd field of a wire record is a signed int32. -/
def toInt32 (n : Nat) : Int :=
  if n < 2147483648 then (n : Int) else (n : Int) - 4294967296

/-- Read a 32-bit little-endian value from the first four bytes of the
buffer (host byte order of the platforms the wrapper targets); none when
fewer than four bytes remain. -/
def readU32 (l : List Nat) : Option Nat :=
  match l with
  | a :: b :: c :: d :: _ => some (a + 256 * (b + 256 * (c + 256 * d)))
  | _ => none

/-- Reading a char pointer into std::string: take bytes up to the first
zero byte. Running off the end of the buffer without finding a
terminator reads unowned memory, modelled as none. -/
def readName (l : List Nat) : Option (List Nat) :=
  match l with
  | [] => none
  | 0 :: _ => some []
  | b :: rest => (readName rest).map (fun nm => b :: nm)

/-- Loop of member function update_queue in include/Inotify.h. The loop
runs while bytes remain; it aborts with "incomplete write" (returning
false) when the remaining byte count is at most the 16-byte header size
— note the comparison data + size <= p + sizeof(inotify_event), which
also rejects a complete trailing record whose name length is zero. A
record is emitted with its name read from the bytes following the header
up to a zero byte (the constructor calls std::string(event.name)), and
the cursor advances by 16 plus the stored length. Events pushed before
an abort stay pushed. Each iteration advances the cursor by at least 16
bytes, so a fuel of the buffer length bounds the iteration count; the
none result on exhausted fuel is unreachable from update_queue. -/
def update_queue_go (fuel : Nat) (rem : List Nat) :
    Option (List InotifyEvent × Bool) :=
  match fuel with
  | 0 => if rem = [] then some ([], true) else none
  | fuel + 1 =>
    if rem = [] then some ([], true)
    else if rem.length ≤ 16 then some ([], false)
    else
      match readU32 rem, readU32 (rem.drop 4), readU32 (rem.drop 8),
            readU32 (rem.drop 12), readName (rem.drop 16) with
      | some wd, some mask, some cookie, some len, some name =>
        (update_queue_go fuel (rem.drop (16 + len))).map
          (fun r => (⟨toInt32 wd, mask, cookie, len, name⟩ :: r.1, r.2))
      | _, _, _, _, _ => none

/-- Member function update_queue: parse the buffer and append the emitted
events to the internal queue, returning the queue and the success flag. -/
def update_queue (queue : List InotifyEvent) (data : List Nat) :
    Option (List InotifyEvent × Bool) :=
  (update_queue_go data.length data).map (fun r => (queue ++ r.1, r.2))

/-- Loop of member function Inotify::_emit_data in src/Inotify.cpp (the
second wrapper variant). No truncation check exists: reading a header
with fewer than 16 bytes remaining, or a counted name that extends past
the buffer, reads unowned memory (none). The name is built with the
counted constructor std::string(name, len). Handlers are connected and
return true in this model, so every parsed event is emitted and the
loop reports true once the cursor leaves the buffer. -/
def emit_data_go (fuel : Nat) (rem : List Nat) :
    Option (List Event × Bool) :=
  match fuel with
  | 0 => if rem = [] then some ([], true) else none
  | fuel + 1 =>
    if rem = [] then some ([], true)
    else if rem.length < 16 then none
    else
      match readU32 rem, readU32 (rem.drop 4), readU32 (rem.drop 8),
            readU32 (rem.drop 12) with
      | some wd, some mask, some cookie, some len =>
        if rem.length < 16 + len then none
        else
          (emit_data_go fuel (rem.drop (16 + len))).map
            (fun r => (⟨toInt32 wd, mask, cookie,
                        (rem.drop 16).take len⟩ :: r.1, r.2))
      | _, _, _, _ => none

/-- Member function Inotify::_emit_data applied to a full buffer. -/
def emit_data (data : List Nat) : Option (List Event × Bool) :=
  emit_data_go data.length data

/-- Little-endian encoding of a 32-bit value, inverse of readU32 on
values below 2 to the 32. -/
def u32le (n : Nat) : List Nat :=
  [n % 256, n / 256 % 256, n / 65536 % 256, n / 16777216 % 256]

/-- Description of one well-formed wire record: header fields, the name
bytes before the zero terminator, and extra zero padding after it (the
kernel pads the name field to alignment). The stored length field is
name.length + 1 + pad. -/
structure RecordSpec where
  wd : Nat
  mask : Nat
  cookie : Nat
  name : List Nat
  pad : Nat
deriving DecidableEq, Repr

/-- Byte encoding of a well-formed record. -/
def encodeRecord (r : RecordSpec) : List Nat :=
  u32le r.wd ++ u32le r.mask ++ u32le r.cookie ++
    u32le (r.name.length + 1 + r.pad) ++ r.name ++ 0 :: List.replicate r.pad 0

/-- Byte encoding of a sequence of well-formed records. -/
def encodeList (rs : List RecordSpec) : List Nat :=
  match rs with
  | [] => []
  | r :: rest => encodeRecord r ++ encodeList rest

/-- A record description is valid when its fields fit in 32 bits and the
name bytes contain no zero (the terminator is written separately). -/
def validRecord (r : RecordSpec) : Prop :=
  r.wd < 4294967296 ∧ r.mask < 4294967296 ∧ r.cookie < 4294967296 ∧
    r.name.length + 1 + r.pad < 4294967296 ∧ ∀ b ∈ r.name, b ≠ 0

instance (r : RecordSpec) : Decidable (validRecord r) := by
  unfold validRecord; infer_instance

/-- The event that update_queue emits for a well-formed record. -/
def toEvent (r : RecordSpec) : InotifyEvent :=
  ⟨toInt32 r.wd, r.mask, r.cookie, r.name.length + 1 + r.pad, r.name⟩

theorem flatMap_congr_mem {α β : Type} {l : List α} {f g : α → List β}
    (h : ∀ a ∈ l, f a = g a) : l.flatMap f = l.flatMap g := by
  induction l with
  | nil => rfl
  | cons a rest ih =>
    simp only [List.flatMap_cons, h a (by simp)]
    rw [ih (fun b hb => h b (by simp [hb]))]

theorem raiseMatching_eq (sigs : List sig_info) (wd : Int) (emask : Nat) :
    raiseMatching sigs wd emask =
      (sigs.filter (fun s => s.wd == wd && (s.mask &&& emask) != 0)).map
        (fun s => s.sig) := by
  induction sigs with
  | nil => rfl
  | cons s rest ih =>
    by_cases h : (s.wd == wd && (s.mask &&& emask) != 0) = true
    · simp [raiseMatching, List.filter_cons, h, ih]
    · simp [raiseMatching, List.filter_cons, h, ih]

theorem poll_wd_queue (sigs : List sig_info) (queue : List InotifyEvent)
    (wd : Int) :
    (poll_wd sigs queue wd).2 = queue.filter (fun e => e.wd != wd) := by
  induction queue with
  | nil => rfl
  | cons e rest ih =>
    by_cases h : e.wd = wd
    · simp [poll_wd, h, ih, List.filter_cons]
    · simp [poll_wd, h, ih, List.filter_cons, bne_iff_ne]

theorem poll_wd_fired (sigs : List sig_info) (queue : List InotifyEvent)
    (wd : Int) :
    (poll_wd sigs queue wd).1 =
      (queue.filter (fun e => e.wd == wd)).flatMap
        (fun e =>
          (sigs.filter
            (fun s => s.wd == wd && (s.mask &&& e.mask) != 0)).map
              (fun s => s.sig)) := by
  induction queue with
  | nil => rfl
  | cons e rest ih =>
    by_cases h : e.wd = wd
    · simp [poll_wd, h, ih, List.filter_cons, raiseMatching_eq]
    · simp [poll_wd, h, ih, List.filter_cons]

theorem poll_all_queue (watches : List Watch) (sigs : List sig_info)
    (queue : List InotifyEvent) :
    (poll_all watches sigs queue).2 =
      queue.filter (fun e => watches.all (fun w => w.wd != e.wd)) := by
  induction watches generalizing queue with
  | nil => simp [poll_all]
  | cons w rest ih =>
    simp only [poll_all, poll_wd_queue, ih, List.filter_filter]
    apply List.filter_congr
    intro e _
    by_cases h : e.wd = w.wd
    · simp [h]
    · have h1 : (e.wd != w.wd) = true := by simp [bne_iff_ne, h]
      have h2 : (w.wd != e.wd) = true := by simp [bne_iff_ne, Ne.symm h]
      simp [List.all_cons, h1, h2]

theorem poll_all_fired (watches : List Watch) (sigs : List sig_info)
    (queue : List InotifyEvent)
    (hnd : (watches.map (fun w => w.wd)).Nodup) :
    (poll_all watches sigs queue).1 =
      watches.flatMap (fun w =>
        (queue.filter (fun e => e.wd == w.wd)).flatMap
          (fun e =>
            (sigs.filter
              (fun s => s.wd == w.wd && (s.mask &&& e.mask) != 0)).map
                (fun s => s.sig))) := by
  induction watches generalizing queue with
  | nil => rfl
  | cons w rest ih =>
    simp only [List.map_cons, List.nodup_cons, List.mem_map] at hnd
    simp only [poll_all, poll_wd_fired, poll_wd_queue, List.flatMap_cons]
    rw [ih _ hnd.2]
    congr 1
    apply flatMap_congr_mem
    intro w2 hw2
    have hne : w2.wd ≠ w.wd := by
      intro hcontra
      exact hnd.1 ⟨w2, hw2, hcontra⟩
    rw [List.filter_filter]
    congr 1
    apply List.filter_congr
    intro e _
    by_cases h : e.wd = w2.wd
    · simp [h, bne_iff_ne, hne]
    · simp [h]

/-- C1: during a directed poll of descriptor d, a binding fires for a
queued event exactly when the binding descriptor equals the event
descriptor d and the bitwise AND of the event mask with the binding mask
is nonzero; matching bindings fire in handler-table insertion order
(events in queue order, and within one event the table is walked front
to back), and the events carrying d are removed while the rest stay
queued. Two bindings on one descriptor with overlapping masks therefore
both fire for an event whose mask overlaps both. -/
theorem poll_wd_dispatch (sigs : List sig_info) (queue : List InotifyEvent)
    (wd : Int) :
    poll_wd sigs queue wd =
      ((queue.filter (fun e => e.wd == wd)).flatMap
        (fun e =>
          (sigs.filter
            (fun s => s.wd == wd && (s.mask &&& e.mask) != 0)).map
              (fun s => s.sig)),
       queue.filter (fun e => e.wd != wd)) := by
  have h1 := poll_wd_fired sigs queue wd
  have h2 := poll_wd_queue sigs queue wd
  exact Prod.ext h1 h2

/-- C4 counterexample: after a first poll(out_queue) that delivered one
event, a second immediate poll(out_queue) with no new kernel data leaves
the caller queue still holding that event — it is not an empty queue,
because the member function only assigns the caller queue when the
internal queue is nonempty. -/
theorem poll_queue_second_poll_not_empty :
    (poll_queue (poll_queue [⟨5, 1, 0, 0, []⟩] [] []).iq
        (poll_queue [⟨5, 1, 0, 0, []⟩] [] []).oq []).oq =
      [⟨5, 1, 0, 0, []⟩] ∧
    ([⟨5, 1, 0, 0, []⟩] : List InotifyEvent) ≠ [] := by decide

/-- C4 amended: poll(out_queue) leaves the internal queue empty, raises
no handler, and move-assigns the whole internal queue (with any newly
read events) over the caller queue when that queue is nonempty,
otherwise it leaves the caller queue untouched; consequently a second
immediate poll with no new kernel data leaves the caller queue exactly
as the first call left it, still holding the delivered events. -/
theorem poll_queue_spec (internal out newEvents : List InotifyEvent) :
    poll_queue internal out newEvents =
      ⟨[], if internal ++ newEvents = [] then out
           else internal ++ newEvents, []⟩ ∧
    (poll_queue (poll_queue internal out newEvents).iq
        (poll_queue internal out newEvents).oq []).oq =
      (poll_queue internal out newEvents).oq := by
  constructor
  · by_cases h : internal ++ newEvents = [] <;>
      simp [poll_queue, List.isEmpty_iff, h]
  · by_cases h : internal ++ newEvents = [] <;>
      simp [poll_queue, List.isEmpty_iff, h]

/-- C5 counterexample: with one registered watch of descriptor 5, an
empty handler table and a queued event carrying descriptor 7, a full
poll raises nothing and the event stays in the internal queue: the
no-argument poll only visits registered descriptors, so an event whose
descriptor matches no watch is neither dispatched nor removed. -/
theorem poll_all_unmatched_event_remains :
    poll_all [⟨1, "a", 5⟩] [] [⟨7, 1, 0, 0, []⟩] =
      ([], [⟨7, 1, 0, 0, []⟩]) ∧
    ([⟨7, 1, 0, 0, []⟩] : List InotifyEvent) ≠ [] := by decide

/-- C5 amended: after a full poll with pairwise distinct registered
descriptors, every queued event whose descriptor equals some registered
watch descriptor receives exactly one dispatch attempt (its matching
bindings fire once, in registry order then queue order) and is removed
from the queue even when no binding matches it; events whose descriptor
matches no registered watch are not dispatched and remain queued. -/
theorem poll_all_spec (watches : List Watch) (sigs : List sig_info)
    (queue : List InotifyEvent)
    (hnd : (watches.map (fun w => w.wd)).Nodup) :
    poll_all watches sigs queue =
      (watches.flatMap (fun w =>
        (queue.filter (fun e => e.wd == w.wd)).flatMap
          (fun e =>
            (sigs.filter
              (fun s => s.wd == w.wd && (s.mask &&& e.mask) != 0)).map
                (fun s => s.sig))),
       queue.filter (fun e => watches.all (fun w => w.wd != e.wd))) := by
  have h1 := poll_all_fired watches sigs queue hnd
  have h2 := poll_all_queue watches sigs queue
  exact Prod.ext h1 h2

/-- C5 amended, witness: two watches, one binding, one matching event and
one event whose descriptor is registered nowhere. -/
theorem poll_all_spec_witness :
    (([(⟨1, "a", 5⟩ : Watch), ⟨2, "b", 6⟩].map (fun w => w.wd)).Nodup) ∧
    poll_all [⟨1, "a", 5⟩, ⟨2, "b", 6⟩] [⟨1, 9, 5⟩]
        [⟨5, 1, 0, 0, []⟩, ⟨7, 1, 0, 0, []⟩] =
      ([9], [⟨7, 1, 0, 0, []⟩]) :=
  ⟨by decide, by
    have h := poll_all_spec [⟨1, "a", 5⟩, ⟨2, "b", 6⟩] [⟨1, 9, 5⟩]
      [⟨5, 1, 0, 0, []⟩, ⟨7, 1, 0, 0, []⟩] (by decide)
    rw [h]; decide⟩

theorem map_id_of_mem {α : Type} {l : List α} {f : α → α}
    (h : ∀ a ∈ l, f a = a) : l.map f = l := by
  induction l with
  | nil => rfl
  | cons a rest ih =>
    simp only [List.map_cons, h a (by simp)]
    rw [ih (fun b hb => h b (by simp [hb]))]

theorem update_watch_spec (watches : List Watch) (wd : Int) (mask : Nat)
    (hnd : (watches.map (fun w => w.wd)).Nodup)
    (hmem : ∃ w ∈ watches, w.wd = wd) :
    update_watch watches wd mask =
      (watches.map
        (fun w => if w.wd = wd then { w with mask := mask } else w), wd) := by
  induction watches with
  | nil => simp at hmem
  | cons w rest ih =>
    simp only [List.map_cons, List.nodup_cons, List.mem_map] at hnd
    by_cases h : w.wd = wd
    · have hrest : ∀ w2 ∈ rest,
          (if w2.wd = wd then { w2 with mask := mask } else w2) = w2 := by
        intro w2 hw2
        have : w2.wd ≠ wd := by
          intro hc
          exact hnd.1 ⟨w2, hw2, by rw [hc, h]⟩
        simp [this]
      simp [update_watch, h, map_id_of_mem hrest]
    · have hmem2 : ∃ w2 ∈ rest, w2.wd = wd := by
        rcases hmem with ⟨w2, hw2, hww⟩
        rcases List.mem_cons.mp hw2 with rfl | hin
        · exact absurd hww h
        · exact ⟨w2, hin, hww⟩
      simp [update_watch, h, ih hnd.2 hmem2]

/-- C2: when the kernel returns the descriptor already registered for a
path (inotify_add_watch yields the existing descriptor for an already
watched path), add_watch replaces the stored mask of that entry in
place with the new mask, returns the existing descriptor, leaves every
other entry untouched and appends no second entry. -/
theorem add_watch_existing_path (watches : List Watch) (path : String)
    (mask : Nat) (kwd : Int)
    (hnd : (watches.map (fun w => w.wd)).Nodup)
    (hmem : ∃ w ∈ watches, w.path = path ∧ w.wd = kwd) :
    add_watch watches path mask kwd =
      (watches.map
        (fun w => if w.wd = kwd then { w with mask := mask } else w),
       kwd) ∧
    (add_watch watches path mask kwd).1.length = watches.length := by
  have hex : exists_wd watches kwd = true := by
    rcases hmem with ⟨w, hw, _, hww⟩
    simp only [exists_wd, List.any_eq_true]
    exact ⟨w, hw, by simp [hww]⟩
  have hmem2 : ∃ w ∈ watches, w.wd = kwd := by
    rcases hmem with ⟨w, hw, _, hww⟩
    exact ⟨w, hw, hww⟩
  have h := update_watch_spec watches kwd mask hnd hmem2
  constructor
  · simp [add_watch, hex, h]
  · simp [add_watch, hex, h]

/-- C2 witness: a registry of two watches; re-adding the path of the
first replaces its mask 3 by 8 and returns its descriptor 5. -/
theorem add_watch_existing_path_witness :
    (([(⟨3, "a", 5⟩ : Watch), ⟨4, "b", 6⟩].map (fun w => w.wd)).Nodup) ∧
    (∃ w ∈ [(⟨3, "a", 5⟩ : Watch), ⟨4, "b", 6⟩],
      w.path = "a" ∧ w.wd = 5) ∧
    add_watch [⟨3, "a", 5⟩, ⟨4, "b", 6⟩] "a" 8 5 =
      ([⟨8, "a", 5⟩, ⟨4, "b", 6⟩], 5) :=
  ⟨by decide, by decide, by
    have h := add_watch_existing_path [⟨3, "a", 5⟩, ⟨4, "b", 6⟩] "a" 8 5
      (by decide) (by decide)
    rw [h.1]; decide⟩

/-- C3: evaluating the one-argument detach at any handler table holding
a binding for the requested descriptor reaches the erase of a list
element followed by an increment of the iterator that the erase
invalidated; the execution is undefined from that point (none), so the
member function never performs the removal the claim describes. The
companion two-argument detach and the queue loop of poll(wd) use the
correct iter = erase(iter) pattern, showing the intent. -/
theorem detach_wd_undefined (sigs : List sig_info) (wd : Int)
    (h : ∃ s ∈ sigs, s.wd = wd) : detach_wd sigs wd = none := by
  induction sigs with
  | nil => simp at h
  | cons s rest ih =>
    by_cases hw : s.wd = wd
    · simp [detach_wd, hw]
    · have h2 : ∃ s2 ∈ rest, s2.wd = wd := by
        rcases h with ⟨s2, hs2, hww⟩
        rcases List.mem_cons.mp hs2 with rfl | hin
        · exact absurd hww hw
        · exact ⟨s2, hin, hww⟩
      simp [detach_wd, hw, ih h2]

/-- C3 witness: a single binding for descriptor 5; detaching descriptor
5 runs into the invalidated-iterator increment. -/
theorem detach_wd_undefined_witness :
    (∃ s ∈ [(⟨1, 7, 5⟩ : sig_info)], s.wd = 5) ∧
    detach_wd [⟨1, 7, 5⟩] 5 = none :=
  ⟨by decide, detach_wd_undefined [⟨1, 7, 5⟩] 5 (by decide)⟩

theorem detach_pair_append_single (sigs : List sig_info) (d : Int)
    (m h : Nat) (hs : sig_exists sigs d m = false) :
    detach_pair (sigs ++ [⟨m, h, d⟩]) d m = (sigs, true) := by
  induction sigs with
  | nil => simp [detach_pair]
  | cons s rest ih =>
    simp only [sig_exists, List.any_cons, Bool.or_eq_false_iff] at hs
    have hcond : ¬(s.wd = d ∧ s.mask = m) := by
      intro ⟨h1, h2⟩
      simp [h1, h2] at hs
    have ih2 := ih (by simp [sig_exists, hs.2])
    simp [detach_pair, hcond, ih2]

theorem sig_exists_append_single (sigs : List sig_info) (d : Int)
    (m h : Nat) :
    sig_exists (sigs ++ [⟨m, h, d⟩]) d m = true := by
  simp [sig_exists, List.any_append]

theorem filter_eq_nil_of_sig_exists_false (sigs : List sig_info) (d : Int)
    (m : Nat) (hs : sig_exists sigs d m = false) :
    sigs.filter (fun s => s.wd == d && s.mask == m) = [] := by
  rw [List.filter_eq_nil_iff]
  intro s hmem
  simp only [sig_exists, List.any_eq_false] at hs
  exact hs s hmem

/-- C9: with descriptor d registered and no prior binding for the exact
pair (d, m), attaching handler h1 for (d, m) and then attaching handler
h2 for the same pair succeeds both times and leaves the handler table
with exactly one binding for (d, m), holding h2 — the second attach
removed the h1 binding before appending, so no duplicate exists and no
explicit detach was needed — and a subsequent dispatch for descriptor d
with an event mask overlapping m raises h2 (after the bindings of the
original table) and never h1. -/
theorem attach_last_write_wins (watches : List Watch)
    (sigs : List sig_info) (d : Int) (m h1 h2 emask : Nat)
    (hw : exists_wd watches d = true)
    (hs : sig_exists sigs d m = false)
    (hm : m &&& emask ≠ 0) :
    (attach watches sigs d m h1 true).2 = true ∧
    (attach watches (attach watches sigs d m h1 true).1 d m h2 true).2 =
      true ∧
    (attach watches (attach watches sigs d m h1 true).1 d m h2 true).1 =
      sigs ++ [⟨m, h2, d⟩] ∧
    (sigs ++ [(⟨m, h2, d⟩ : sig_info)]).filter
      (fun s => s.wd == d && s.mask == m) = [⟨m, h2, d⟩] ∧
    raiseMatching (sigs ++ [⟨m, h2, d⟩]) d emask =
      raiseMatching sigs d emask ++ [h2] := by
  have hstep1 : attach watches sigs d m h1 true =
      (sigs ++ [⟨m, h1, d⟩], true) := by
    simp [attach, hw, hs]
  have hstep2 : attach watches (sigs ++ [⟨m, h1, d⟩]) d m h2 true =
      (sigs ++ [⟨m, h2, d⟩], true) := by
    simp [attach, hw, sig_exists_append_single,
          detach_pair_append_single sigs d m h1 hs]
  refine ⟨by rw [hstep1], ?_, ?_, ?_, ?_⟩
  · rw [hstep1, hstep2]
  · rw [hstep1, hstep2]
  · rw [List.filter_append, filter_eq_nil_of_sig_exists_false sigs d m hs]
    simp [hm]
  · rw [raiseMatching_eq, raiseMatching_eq, List.filter_append,
        List.map_append]
    simp [hm]

/-- C9 witness: one watch with descriptor 5, empty table, masks m = 3
and event mask 1 (overlap 1): after attaching handlers 10 then 11 for
(5, 3), only handler 11 is bound and only it fires. -/
theorem attach_last_write_wins_witness :
    exists_wd [⟨1, "a", 5⟩] 5 = true ∧
    sig_exists [] 5 3 = false ∧
    (3 &&& 1 : Nat) ≠ 0 ∧
    (attach [⟨1, "a", 5⟩]
      (attach [⟨1, "a", 5⟩] [] 5 3 10 true).1 5 3 11 true).1 =
        [⟨3, 11, 5⟩] ∧
    raiseMatching [⟨3, 11, 5⟩] 5 1 = [11] :=
  ⟨by decide, by decide, by decide, by
    have h := attach_last_write_wins [⟨1, "a", 5⟩] [] 5 3 10 11 1
      (by decide) (by decide) (by decide)
    rw [h.2.2.1]; simp, by decide⟩

theorem detach_pair_filter (sigs : List sig_info) (d : Int) (m : Nat) :
    (detach_pair sigs d m).1.filter (fun s => s.wd == d && s.mask == m) =
      (sigs.filter (fun s => s.wd == d && s.mask == m)).tail := by
  induction sigs with
  | nil => rfl
  | cons s rest ih =>
    by_cases h : s.wd = d ∧ s.mask = m
    · simp [detach_pair, h, List.filter_cons, h.1, h.2]
    · have hb : (s.wd == d && s.mask == m) = false := by
        rcases not_and_or.mp h with h1 | h1 <;> simp [h1]
      simp [detach_pair, h, List.filter_cons, hb, ih]

theorem detach_pair_length (sigs : List sig_info) (d : Int) (m : Nat)
    (hs : sig_exists sigs d m = true) :
    (detach_pair sigs d m).1.length + 1 = sigs.length := by
  induction sigs with
  | nil => simp [sig_exists] at hs
  | cons s rest ih =>
    by_cases h : s.wd = d ∧ s.mask = m
    · simp [detach_pair, h]
    · have hb : (s.wd == d && s.mask == m) = false := by
        rcases not_and_or.mp h with h1 | h1 <;> simp [h1]
      simp only [sig_exists, List.any_cons, hb, Bool.false_or] at hs
      simp [detach_pair, h, ih hs]

/-- C10: with descriptor d registered and exactly one existing binding
for the pair (d, m), a call to attach for (d, m) whose handler fails to
attach returns false, yet the handler table has shrunk by one entry and
no longer holds any binding for (d, m): the pre-existing binding was
detached before the handler validity was checked, so the failed
re-attach loses the old handler instead of leaving the table unchanged. -/
theorem attach_invalid_loses_binding (watches : List Watch)
    (sigs : List sig_info) (d : Int) (m h : Nat)
    (hw : exists_wd watches d = true)
    (hone : (sigs.filter (fun s => s.wd == d && s.mask == m)).length = 1) :
    (attach watches sigs d m h false).2 = false ∧
    (attach watches sigs d m h false).1.length + 1 = sigs.length ∧
    sig_exists (attach watches sigs d m h false).1 d m = false := by
  have hs : sig_exists sigs d m = true := by
    simp only [sig_exists, List.any_eq_true]
    have : sigs.filter (fun s => s.wd == d && s.mask == m) ≠ [] := by
      intro hc
      rw [hc] at hone
      simp at hone
    rcases List.exists_mem_of_ne_nil _ this with ⟨s, hsmem⟩
    have := List.mem_filter.mp hsmem
    exact ⟨s, this.1, this.2⟩
  have hres : attach watches sigs d m h false =
      ((detach_pair sigs d m).1, false) := by
    simp [attach, hw, hs]
  refine ⟨by rw [hres], by rw [hres]; exact detach_pair_length sigs d m hs,
          ?_⟩
  rw [hres]
  simp only [sig_exists, List.any_eq_false]
  intro s hsmem
  intro hc
  have hfil : s ∈ (detach_pair sigs d m).1.filter
      (fun s => s.wd == d && s.mask == m) := List.mem_filter.mpr ⟨hsmem, hc⟩
  rw [detach_pair_filter] at hfil
  cases hx : sigs.filter (fun s => s.wd == d && s.mask == m) with
  | nil => rw [hx] at hone; simp at hone
  | cons a l =>
    rw [hx] at hone hfil
    simp only [List.length_cons] at hone
    have hl : l = [] := List.length_eq_zero.mp (by omega)
    rw [hl] at hfil
    simp at hfil

/-- C10 witness: one watch with descriptor 5 and one binding (5, 3); a
failed re-attach for (5, 3) returns false with the binding gone. -/
theorem attach_invalid_loses_binding_witness :
    exists_wd [⟨1, "a", 5⟩] 5 = true ∧
    (([(⟨3, 10, 5⟩ : sig_info)]).filter
      (fun s => s.wd == 5 && s.mask == 3)).length = 1 ∧
    (attach [⟨1, "a", 5⟩] [⟨3, 10, 5⟩] 5 3 11 false).2 = false ∧
    sig_exists (attach [⟨1, "a", 5⟩] [⟨3, 10, 5⟩] 5 3 11 false).1 5 3 =
      false :=
  ⟨by decide, by decide, by
    have h := attach_invalid_loses_binding [⟨1, "a", 5⟩] [⟨3, 10, 5⟩] 5 3 11
      (by decide) (by decide)
    exact h.1, by
    have h := attach_invalid_loses_binding [⟨1, "a", 5⟩] [⟨3, 10, 5⟩] 5 3 11
      (by decide) (by decide)
    exact h.2.2⟩

theorem detach_wd_no_match (sigs : List sig_info) (wd : Int)
    (h : ∀ s ∈ sigs, s.wd ≠ wd) : detach_wd sigs wd = some (sigs, false) := by
  induction sigs with
  | nil => rfl
  | cons s rest ih =>
    have h1 : s.wd ≠ wd := h s (by simp)
    have ih2 := ih (fun x hx => h x (by simp [hx]))
    simp [detach_wd, h1, ih2]

theorem rm_watch_find_spec (watches : List Watch) (path : String)
    (kernelok : Bool) :
    (rm_watch_find watches path kernelok).1 =
      watches.eraseP (fun w => w.path == path) ∧
    (rm_watch_find watches path kernelok).2.2 =
      ((watches.any (fun w => w.path == path)) && kernelok) := by
  induction watches with
  | nil => simp [rm_watch_find]
  | cons w rest ih =>
    by_cases h : w.path = path
    · simp [rm_watch_find, h, List.eraseP_cons]
    · have hb : (w.path == path) = false := by simp [h]
      simp [rm_watch_find, h, List.eraseP_cons, hb, ih.1, ih.2]

/-- C8 counterexample: a registry holding one watch for path p with
descriptor 5 and an empty handler table. The path-keyed rm_watch
removes the entry but returns 1 — the int conversion of its local
success flag — not the removed descriptor 5, because the return
statement returns success although the function computed the descriptor
into a local variable. -/
theorem rm_watch_path_returns_one_not_descriptor :
    rm_watch_path [⟨1, "p", 5⟩] [] "p" true = some ([], [], 1) ∧
    (1 : Int) ≠ 5 := by decide

/-- C8 amended: provided the one-argument detach performed on the way
out touches no binding (otherwise rm_watch inherits the undefined
iterator increment of detach), the path-keyed rm_watch erases the first
registry entry whose path matches, leaves the handler table unchanged,
and returns the int conversion of its success flag: 1 when a watch for
the path existed and the kernel removal succeeded, 0 otherwise
(including when no watch exists for the path); the removed descriptor
is never returned. -/
theorem rm_watch_path_spec (watches : List Watch) (sigs : List sig_info)
    (path : String) (kernelok : Bool)
    (hs : ∀ s ∈ sigs, s.wd ≠ (rm_watch_find watches path kernelok).2.1) :
    rm_watch_path watches sigs path kernelok =
      some (watches.eraseP (fun w => w.path == path), sigs,
            if (watches.any (fun w => w.path == path)) && kernelok then 1
            else 0) := by
  have hfind := rm_watch_find_spec watches path kernelok
  have hd := detach_wd_no_match sigs _ hs
  simp only [rm_watch_path, hd, Option.map_some]
  rw [hfind.1, hfind.2]
  rfl

/-- C8 amended, witness: one watch for path p with descriptor 5 and one
binding for a different descriptor 7; rm_watch(p) erases the watch,
keeps the binding and returns 1. -/
theorem rm_watch_path_spec_witness :
    (∀ s ∈ [(⟨1, 9, 7⟩ : sig_info)],
      s.wd ≠ (rm_watch_find [⟨1, "p", 5⟩] "p" true).2.1) ∧
    rm_watch_path [⟨1, "p", 5⟩] [⟨1, 9, 7⟩] "p" true =
      some ([], [⟨1, 9, 7⟩], 1) :=
  ⟨by decide, by
    have h := rm_watch_path_spec [⟨1, "p", 5⟩] [⟨1, 9, 7⟩] "p" true
      (by decide)
    rw [h]; decide⟩

theorem update_queue_go_succ (fuel : Nat) (rem : List Nat) :
    update_queue_go (fuel + 1) rem =
      (if rem = [] then some ([], true)
       else if rem.length ≤ 16 then some ([], false)
       else
        match readU32 rem, readU32 (rem.drop 4), readU32 (rem.drop 8),
              readU32 (rem.drop 12), readName (rem.drop 16) with
        | some wd, some mask, some cookie, some len, some name =>
          (update_queue_go fuel (rem.drop (16 + len))).map
            (fun r => (⟨toInt32 wd, mask, cookie, len, name⟩ :: r.1, r.2))
        | _, _, _, _, _ => none) := rfl

theorem readU32_u32le (n : Nat) (h : n < 4294967296) (rest : List Nat) :
    readU32 (u32le n ++ rest) = some n := by
  simp only [u32le, List.cons_append, List.nil_append, readU32,
             Option.some.injEq]
  omega

theorem readName_encode (name rest : List Nat)
    (h : ∀ b ∈ name, b ≠ 0) : readName (name ++ 0 :: rest) = some name := by
  induction name with
  | nil => rfl
  | cons b nm ih =>
    have hb : b ≠ 0 := h b (by simp)
    cases b with
    | zero => exact absurd rfl hb
    | succ k =>
      have ih2 := ih (fun x hx => h x (by simp [hx]))
      simp [readName, ih2]

theorem encodeRecord_length (r : RecordSpec) :
    (encodeRecord r).length = 16 + (r.name.length + 1 + r.pad) := by
  simp [encodeRecord, u32le]
  omega

theorem update_queue_go_step (fuel : Nat) (r : RecordSpec)
    (rest : List Nat) (hv : validRecord r) :
    update_queue_go (fuel + 1) (encodeRecord r ++ rest) =
      (update_queue_go fuel rest).map
        (fun res => (toEvent r :: res.1, res.2)) := by
  obtain ⟨hwd, hmask, hcookie, hlen, hname⟩ := hv
  have hne : encodeRecord r ++ rest ≠ [] := by
    simp [encodeRecord, u32le]
  have hlength : (encodeRecord r ++ rest).length =
      16 + (r.name.length + 1 + r.pad) + rest.length := by
    rw [List.length_append, encodeRecord_length]
  have hle : ¬((encodeRecord r ++ rest).length ≤ 16) := by
    rw [hlength]; omega
  have h0 : readU32 (encodeRecord r ++ rest) = some r.wd :=
    readU32_u32le r.wd hwd _
  have h4 : readU32 ((encodeRecord r ++ rest).drop 4) = some r.mask :=
    readU32_u32le r.mask hmask _
  have h8 : readU32 ((encodeRecord r ++ rest).drop 8) = some r.cookie :=
    readU32_u32le r.cookie hcookie _
  have h12 : readU32 ((encodeRecord r ++ rest).drop 12) =
      some (r.name.length + 1 + r.pad) :=
    readU32_u32le _ hlen _
  have h16 : readName ((encodeRecord r ++ rest).drop 16) = some r.name := by
    show readName ((r.name ++ 0 :: List.replicate r.pad 0) ++ rest) =
      some r.name
    rw [List.append_assoc, List.cons_append]
    exact readName_encode r.name _ hname
  have hdrop : (encodeRecord r ++ rest).drop
      (16 + (r.name.length + 1 + r.pad)) = rest := by
    rw [← encodeRecord_length r]
    exact List.drop_left _ _
  rw [update_queue_go_succ, if_neg hne, if_neg hle, h0, h4, h8, h12, h16]
  show (update_queue_go fuel ((encodeRecord r ++ rest).drop
      (16 + (r.name.length + 1 + r.pad)))).map
        (fun res => (⟨toInt32 r.wd, r.mask, r.cookie,
          r.name.length + 1 + r.pad, r.name⟩ :: res.1, res.2)) =
      (update_queue_go fuel rest).map
        (fun res => (toEvent r :: res.1, res.2))
  rw [hdrop]
  rfl

theorem update_queue_go_records (recs : List RecordSpec) (tail : List Nat)
    (hv : ∀ r ∈ recs, validRecord r) (ht1 : tail ≠ [])
    (ht2 : tail.length ≤ 16) :
    ∀ fuel, (encodeList recs ++ tail).length ≤ fuel →
      update_queue_go fuel (encodeList recs ++ tail) =
        some (recs.map toEvent, false) := by
  induction recs with
  | nil =>
    intro fuel hfuel
    simp only [encodeList, List.nil_append, List.map_nil] at *
    cases fuel with
    | zero =>
      have := List.length_pos.mpr ht1
      omega
    | succ f => rw [update_queue_go_succ, if_neg ht1, if_pos ht2]
  | cons r rs ih =>
    intro fuel hfuel
    have hsplit : encodeList (r :: rs) ++ tail =
        encodeRecord r ++ (encodeList rs ++ tail) := by
      simp [encodeList]
    rw [hsplit] at hfuel ⊢
    cases fuel with
    | zero =>
      rw [List.length_append, encodeRecord_length] at hfuel
      omega
    | succ f =>
      rw [update_queue_go_step f r _ (hv r (by simp))]
      have hf2 : (encodeList rs ++ tail).length ≤ f := by
        rw [List.length_append, encodeRecord_length] at hfuel
        omega
      rw [ih (fun x hx => hv x (by simp [hx])) f hf2]
      simp

/-- C6: a 16-byte buffer holding exactly one complete record with
name_length zero (wd 1, mask 2, cookie 0). The update_queue parser of
the primary variant aborts with the "incomplete write" message and
returns false without emitting the record, because its bound check
data + size <= p + sizeof(inotify_event) also fires when the header
ends exactly at the end of the buffer; the parser of the second variant
accepts the same buffer, emits the event and reports success, matching
the claim. -/
theorem update_queue_rejects_trailing_len_zero :
    update_queue [] [1, 0, 0, 0, 2, 0, 0, 0, 0, 0, 0, 0, 0, 0, 0, 0] =
      some ([], false) ∧
    emit_data [1, 0, 0, 0, 2, 0, 0, 0, 0, 0, 0, 0, 0, 0, 0, 0] =
      some ([⟨1, 2, 0, []⟩], true) := by decide

/-- C7 counterexample: a buffer holding one well-formed record (wd 1,
mask 1, name "a" padded to four bytes) followed by a trailing record
whose header claims a four-byte name while only one byte remains after
the header (17 bytes where 20 are needed). The claim requires parsing
to stop at the truncation point, discard the partial tail and report a
soft condition; update_queue instead emits the truncated record as a
second event (its name read from the single remaining byte) and
reports plain success. -/
theorem update_queue_emits_truncated_tail :
    update_queue []
      ([1, 0, 0, 0, 1, 0, 0, 0, 0, 0, 0, 0, 4, 0, 0, 0, 97, 0, 0, 0] ++
       [2, 0, 0, 0, 2, 0, 0, 0, 0, 0, 0, 0, 4, 0, 0, 0, 0]) =
      some ([⟨1, 1, 0, 4, [97]⟩, ⟨2, 2, 0, 4, []⟩], true) := by decide

/-- C7 amended: when the remaining bytes at the cursor are nonzero yet
at most the 16-byte header size, update_queue stops there, discards
the partial trailing bytes, keeps every previously parsed record in
the event queue (appended in encounter order) and reports the
condition through its false return value; a trailing record whose
header fits but whose claimed name length exceeds the remaining bytes
is not treated as truncated. -/
theorem update_queue_truncated_header_spec (queue : List InotifyEvent)
    (recs : List RecordSpec) (tail : List Nat)
    (hv : ∀ r ∈ recs, validRecord r) (ht1 : tail ≠ [])
    (ht2 : tail.length ≤ 16) :
    update_queue queue (encodeList recs ++ tail) =
      some (queue ++ recs.map toEvent, false) := by
  unfold update_queue
  rw [update_queue_go_records recs tail hv ht1 ht2 _ (le_refl _)]
  rfl

/-- C7 amended, witness: one record (wd 1, mask 2, cookie 3, name "a")
followed by a 9-byte truncated header; the record is delivered after
the existing queue contents and update_queue returns false. -/
theorem update_queue_truncated_header_spec_witness :
    (∀ r ∈ [(⟨1, 2, 3, [97], 0⟩ : RecordSpec)], validRecord r) ∧
    ([9, 9, 9, 9, 9, 9, 9, 9, 9] : List Nat) ≠ [] ∧
    ([9, 9, 9, 9, 9, 9, 9, 9, 9] : List Nat).length ≤ 16 ∧
    update_queue [⟨4, 4, 4, 4, []⟩]
      (encodeList [⟨1, 2, 3, [97], 0⟩] ++ [9, 9, 9, 9, 9, 9, 9, 9, 9]) =
      some ([⟨4, 4, 4, 4, []⟩, ⟨1, 2, 3, 2, [97]⟩], false) :=
  ⟨by decide, by decide, by decide, by
    have h := update_queue_truncated_header_spec [⟨4, 4, 4, 4, []⟩]
      [⟨1, 2, 3, [97], 0⟩] [9, 9, 9, 9, 9, 9, 9, 9, 9]
      (by decide) (by decide) (by decide)
    rw [h]; decide⟩
